import Mathlib

/-! Shallow embedding of the type-inference engine of
haskell-type-inference-visualizer.

Primary source: src/unnamed/part_000 (the v3.0 engine with list types).
A second, older engine lives in src/src/App.js; its analyzer and front end
are embedded separately (suffix `App`) where a claim depends on them.

Modelling conventions:
- JS numbers that hold token values are modelled as `Nat` (all literals are
  digit runs parsed by `parseInt`).
- JS mutable `TypeVar.instance` fields are modelled as a store
  `Vars := List (Option Ty)` indexed by creation order; the variable named
  `T<i>` is `Ty.tVar i`.  `newTypeVar` appends an unbound slot.
- JS exceptions are `Except Err`; the thrown message is kept verbatim.
  Mutations performed before a throw survive it (the store is global in JS),
  so every stateful function returns its updated state alongside the
  `Except` result.
- Recursions that are not structural in JS (pruning chains, unification,
  the recursive-descent parser) take an explicit fuel argument, decremented
  on every call; exhaustion yields `Err.outOfFuel`, an artefact of the
  model that no adequately fuelled run reaches.  `prune`, `occursIn` and
  `tyToString` cannot throw in JS, so on exhaustion they return their
  argument unchanged / `false` / `""`.
- AST node `uid`s are random strings used only for UI highlighting and the
  trace `nodeId` field; they carry no semantics and are elided from the
  model.
- The environment is a plain JS object built by spread, so `env[name]` is
  full JS property lookup: the bindings the analyzer adds are its own
  properties, but a name with no binding still finds the truthy inherited
  members of `Object.prototype` (modelled as `Ty.tHost` values by
  `envGet`); only a name that is neither yields `undefined` (falsy) and
  triggers the undefined-variable throw.
-/

namespace HMViz

/-- Errors: a thrown JS `Error` message, or the model's fuel artefact. -/
inductive Err where
  | msg (s : String)
  | outOfFuel
deriving DecidableEq, Repr

/-- The type model of part_000: `TypeInt`, `TypeBool`, `TypeVar`,
`TypeArrow`, `TypeList`.  A `TypeVar` is its index in the creation-order
registry; its `instance` field lives in the store.  `tHost name` is not a
`Type` instance at all: it is the host JavaScript value found when an
environment lookup falls through to the inherited `Object.prototype`
member `name` (a native function, or the prototype object itself for
`__proto__`); such a value is truthy, matches no `instanceof` check, and
flows through the engine like any other value. -/
inductive Ty where
  | tInt
  | tBool
  | tVar (n : Nat)
  | tArrow (param ret : Ty)
  | tList (elem : Ty)
  | tHost (name : String)
deriving DecidableEq, Repr

/-- The own property names of `Object.prototype` (per ECMAScript), which
plain-object environments inherit: property lookup of any of these on an
environment with no own binding of that name yields a truthy value. -/
def objectProtoMembers : List String :=
  ["constructor", "hasOwnProperty", "isPrototypeOf", "propertyIsEnumerable",
   "toLocaleString", "toString", "valueOf",
   "__defineGetter__", "__defineSetter__", "__lookupGetter__",
   "__lookupSetter__", "__proto__"]

/-- String conversion of an inherited host value: `__proto__` is the
prototype object itself, printing `[object Object]`; the rest are native
functions, printed by V8 as `function <name>() { [native code] }`. -/
def jsHostToString (name : String) : String :=
  if name = "__proto__" then "[object Object]"
  else "function " ++ name ++ "() \x7b [native code] \x7d"

/-- The store of `TypeVar.instance` fields, indexed by variable number. -/
abbrev Vars := List (Option Ty)

/-- Read `T<n>.instance` (out-of-registry indices are unbound). -/
def getInstance (v : Vars) (n : Nat) : Option Ty :=
  match v.get? n with
  | some o => o
  | none => none

/-- Write `T<n>.instance = t`. -/
def setInstance (v : Vars) (n : Nat) (t : Ty) : Vars :=
  v.set n (some t)

/-- Function `prune` from part_000: follow a variable's `instance` chain to its end,
writing the result back into each visited variable (path compression).
Non-variables and unbound variables are returned unchanged. -/
def prune : Nat → Ty → Vars → Ty × Vars
  | 0, t, v => (t, v)
  | fuel + 1, t, v =>
    match t with
    | .tVar n =>
      match getInstance v n with
      | some inst =>
        let (r, v') := prune fuel inst v
        (r, setInstance v' n r)
      | none => (t, v)
    | _ => (t, v)

/-- Function `occursIn` from part_000: prune `t`, test identity with `T<n>`, and
recurse structurally through arrows and lists. -/
def occursIn : Nat → Nat → Ty → Vars → Bool × Vars
  | 0, _, _, v => (false, v)
  | fuel + 1, n, t, v =>
    let (t', v') := prune fuel t v
    match t' with
    | .tVar m => (m = n, v')
    | .tArrow p r =>
      let (b1, v1) := occursIn fuel n p v'
      if b1 then (true, v1) else occursIn fuel n r v1
    | .tList e => occursIn fuel n e v'
    | _ => (false, v')

/-- The `toString` methods of the type classes.  `TypeVar` prints through
its `instance` when bound, else its name `T<n>`; `TypeArrow` parenthesises
its parameter exactly when the parameter is itself (directly) a
`TypeArrow`; `TypeList` prints `[elem]`. -/
def tyToString : Nat → Vars → Ty → String
  | 0, _, _ => ""
  | fuel + 1, v, t =>
    match t with
    | .tInt => "Int"
    | .tBool => "Bool"
    | .tVar n =>
      match getInstance v n with
      | some inst => tyToString fuel v inst
      | none => "T" ++ Nat.repr n
    | .tArrow p r =>
      (match p with
       | .tArrow _ _ => "(" ++ tyToString fuel v p ++ ")"
       | _ => tyToString fuel v p) ++ " -> " ++ tyToString fuel v r
    | .tList e => "[" ++ tyToString fuel v e ++ "]"
    | .tHost s => jsHostToString s

/-- The AST of part_000. -/
inductive Expr where
  | eInt (val : Nat)
  | eBool (val : Bool)
  | eVar (name : String)
  | eBinOp (op : String) (left right : Expr)
  | eIf (cond thenBr elseBr : Expr)
  | eFun (param : String) (body : Expr)
  | eLet (name : String) (val body : Expr)
  | eApp (func arg : Expr)
  | eList (head tail : Expr)
  | eEmptyList
deriving DecidableEq, Repr

/-- The `toString` methods of the `Expr` classes (used in trace messages). -/
def exprLabel : Expr → String
  | .eInt v => "Int(" ++ Nat.repr v ++ ")"
  | .eBool b => "Bool(" ++ (if b then "true" else "false") ++ ")"
  | .eVar n => "Var(" ++ n ++ ")"
  | .eBinOp op _ _ => "Op(" ++ op ++ ")"
  | .eIf _ _ _ => "If"
  | .eFun p _ => "Fun(" ++ p ++ ")"
  | .eLet n _ _ => "Let(" ++ n ++ ")"
  | .eApp _ _ => "App"
  | .eList _ _ => "List"
  | .eEmptyList => "[]"

-- ### Tokenizer (part_000)

/-- Tokens, mirroring the tagged objects the tokenizer pushes. -/
inductive Token where
  | num (val : Nat)
  | bool (val : Bool)
  | kw (val : String)
  | arrow
  | op (val : String)
  | id (val : String)
  | punc (val : String)
deriving DecidableEq, Repr

/-- Token value `t.val` as JS stringifies it; `undefined` for a missing token. -/
def tokVal : Option Token → String
  | some (.num v) => Nat.repr v
  | some (.bool b) => if b then "true" else "false"
  | some (.kw s) => s
  | some .arrow => "->"
  | some (.op s) => s
  | some (.id s) => s
  | some (.punc s) => s
  | none => "undefined"

def isWs (c : Char) : Bool :=
  c = ' ' || c = '\t' || c = '\n' || c = '\r'

def isDigitCh (c : Char) : Bool :=
  '0' ≤ c && c ≤ '9'

def isIdStart (c : Char) : Bool :=
  ('a' ≤ c && c ≤ 'z') || ('A' ≤ c && c ≤ 'Z') || c = '_'

def isIdCh (c : Char) : Bool :=
  isIdStart c || isDigitCh c

/-- Evaluate `parseInt` on a digit run. -/
def digitsToNat (cs : List Char) : Nat :=
  cs.foldl (fun a c => a * 10 + (c.toNat - '0'.toNat)) 0

/-- Try to match one string `w` as a literal at the head of `cs`. -/
def takeLit (w : String) (cs : List Char) : Option (List Char) :=
  if w.data.isPrefixOf cs then some (cs.drop w.length) else none

/-- Try each literal of `ws` in order (regex alternation order). -/
def takeFirstLit (ws : List String) (cs : List Char) :
    Option (String × List Char) :=
  match ws with
  | [] => none
  | w :: rest =>
    match takeLit w cs with
    | some cs' => some (w, cs')
    | none => takeFirstLit rest cs

/-- The alternatives of the tokenizer regex, tried in source order at each
position; a character matched by no alternative is silently skipped
(the regex engine just advances). -/
def tokenizeGo : Nat → List Char → List Token
  | 0, _ => []
  | _, [] => []
  | fuel + 1, c :: cs =>
    if isWs c then tokenizeGo fuel ((c :: cs).dropWhile isWs)
    else if isDigitCh c then
      let ds := (c :: cs).takeWhile isDigitCh
      .num (digitsToNat ds) :: tokenizeGo fuel ((c :: cs).dropWhile isDigitCh)
    else
      match takeFirstLit ["true", "false"] (c :: cs) with
      | some (w, rest) => .bool (w = "true") :: tokenizeGo fuel rest
      | none =>
        match takeFirstLit ["let", "in", "if", "then", "else", "fun"] (c :: cs) with
        | some (w, rest) => .kw w :: tokenizeGo fuel rest
        | none =>
          match takeLit "->" (c :: cs) with
          | some rest => .arrow :: tokenizeGo fuel rest
          | none =>
            match takeFirstLit ["==", "!=", "<=", ">=", "<", ">", "+", "-", "*", "/", "::", "="] (c :: cs) with
            | some (w, rest) => .op w :: tokenizeGo fuel rest
            | none =>
              if isIdStart c then
                let ds := (c :: cs).takeWhile isIdCh
                .id (String.mk ds) :: tokenizeGo fuel ((c :: cs).dropWhile isIdCh)
              else if c = '[' || c = ']' || c = '(' || c = ')' || c = ',' then
                .punc (String.mk [c]) :: tokenizeGo fuel cs
              else
                tokenizeGo fuel cs

/-- Function `tokenize` from part_000. -/
def tokenize (s : String) : List Token :=
  tokenizeGo (s.length + 1) s.data

-- ### Parser (part_000)

/-- The `expect` failure message:
`Erro Sintático: Esperado <val>, achou <peek val>`. -/
def expectedMsg (want : String) (found : Option Token) : String :=
  "Erro Sintático: Esperado " ++ want ++ ", achou " ++ tokVal found

/-- Loop condition of `parseApp`: the next token can start an atom. -/
def atomStart : List Token → Bool
  | .num _ :: _ => true
  | .bool _ :: _ => true
  | .id _ :: _ => true
  | .punc "(" :: _ => true
  | .punc "[" :: _ => true
  | _ => false

mutual

/-- Method `Parser.parseAtom` from part_000 (including the list-literal grammar:
`[]`, `[e]` and `[e1, e2]` only). -/
def parseAtom : Nat → List Token → Except Err (Expr × List Token)
  | 0, _ => .error .outOfFuel
  | fuel + 1, ts =>
    match ts with
    | [] => .error (.msg "Fim inesperado")
    | .num v :: rest => .ok (.eInt v, rest)
    | .bool b :: rest => .ok (.eBool b, rest)
    | .id n :: rest => .ok (.eVar n, rest)
    | .punc "[" :: rest =>
      match rest with
      | .punc "]" :: r2 => .ok (.eEmptyList, r2)
      | _ =>
        match parseExpression fuel rest with
        | .error e => .error e
        | .ok (head, r2) =>
          match r2 with
          | .punc "," :: r3 =>
            match parseExpression fuel r3 with
            | .error e => .error e
            | .ok (second, r4) =>
              match r4 with
              | .punc "]" :: r5 =>
                .ok (.eList head (.eList second .eEmptyList), r5)
              | _ => .error (.msg (expectedMsg "]" r4.head?))
          | .punc "]" :: r3 => .ok (.eList head .eEmptyList, r3)
          | _ => .error (.msg (expectedMsg "]" r2.head?))
    | .punc "(" :: rest =>
      match parseExpression fuel rest with
      | .error e => .error e
      | .ok (e, r2) =>
        match r2 with
        | .punc ")" :: r3 => .ok (e, r3)
        | _ => .error (.msg (expectedMsg ")" r2.head?))
    | t :: _ => .error (.msg ("Token inesperado: " ++ tokVal (some t)))

/-- Method `Parser.parseApp`: left-associative juxtaposition of atoms. -/
def parseApp : Nat → List Token → Except Err (Expr × List Token)
  | 0, _ => .error .outOfFuel
  | fuel + 1, ts =>
    match parseAtom fuel ts with
    | .error e => .error e
    | .ok (e, rest) => parseAppLoop fuel e rest

/-- The `while (true)` loop inside `parseApp`. -/
def parseAppLoop : Nat → Expr → List Token → Except Err (Expr × List Token)
  | 0, _, _ => .error .outOfFuel
  | fuel + 1, acc, ts =>
    if atomStart ts then
      match parseAtom fuel ts with
      | .error e => .error e
      | .ok (a, rest) => parseAppLoop fuel (.eApp acc a) rest
    else .ok (acc, ts)

/-- Method `Parser.parseBinary`: one precedence level, right associative; any
`OP` token other than `=` continues the chain. -/
def parseBinary : Nat → List Token → Except Err (Expr × List Token)
  | 0, _ => .error .outOfFuel
  | fuel + 1, ts =>
    match parseApp fuel ts with
    | .error e => .error e
    | .ok (l, rest) =>
      match rest with
      | .op v :: r2 =>
        if v = "=" then .ok (l, .op v :: r2)
        else
          match parseBinary fuel r2 with
          | .error e => .error e
          | .ok (r, r3) => .ok (.eBinOp v l r, r3)
      | _ => .ok (l, rest)

/-- Method `Parser.parseExpression`: dispatch on a leading `let` / `fun` / `if`
keyword, else fall through to `parseBinary`.  (For `let`/`fun` at the very
end of input JS dereferences `undefined` and throws a `TypeError`; the
model maps that crash to the same-branch parse error message.) -/
def parseExpression : Nat → List Token → Except Err (Expr × List Token)
  | 0, _ => .error .outOfFuel
  | fuel + 1, ts =>
    match ts with
    | .kw "let" :: rest =>
      match rest with
      | .id n :: r2 =>
        match r2 with
        | .op "=" :: r3 =>
          match parseExpression fuel r3 with
          | .error e => .error e
          | .ok (v, r4) =>
            match r4 with
            | .kw "in" :: r5 =>
              match parseExpression fuel r5 with
              | .error e => .error e
              | .ok (b, r6) => .ok (.eLet n v b, r6)
            | _ => .error (.msg (expectedMsg "in" r4.head?))
        | _ => .error (.msg (expectedMsg "=" r2.head?))
      | _ => .error (.msg "Esperado ID após let")
    | .kw "fun" :: rest =>
      match rest with
      | .id p :: r2 =>
        match r2 with
        | .arrow :: r3 =>
          match parseExpression fuel r3 with
          | .error e => .error e
          | .ok (b, r4) => .ok (.eFun p b, r4)
        | _ => .error (.msg (expectedMsg "ARROW" r2.head?))
      | _ => .error (.msg "Esperado param após fun")
    | .kw "if" :: rest =>
      match parseExpression fuel rest with
      | .error e => .error e
      | .ok (c, r2) =>
        match r2 with
        | .kw "then" :: r3 =>
          match parseExpression fuel r3 with
          | .error e => .error e
          | .ok (t, r4) =>
            match r4 with
            | .kw "else" :: r5 =>
              match parseExpression fuel r5 with
              | .error e => .error e
              | .ok (e, r6) => .ok (.eIf c t e, r6)
            | _ => .error (.msg (expectedMsg "else" r4.head?))
        | _ => .error (.msg (expectedMsg "then" r2.head?))
    | _ => parseBinary fuel ts

end

-- ### Inference engine (part_000)

/-- One recorded trace step: message, category string, and the
type-variable memory snapshot taken when the step was recorded.
(The JS step also stores a random `nodeId` used only for highlighting;
it is elided.) -/
structure TraceEvent where
  msg : String
  cat : String
  memory : List (String × String)
deriving DecidableEq, Repr

/-- The engine's mutable state: the `typeVars` registry (instances) and
the recorded trace. -/
structure St where
  vars : Vars
  trace : List TraceEvent
deriving DecidableEq, Repr

def pushEvent (st : St) (m c : String) (snap : List (String × String)) : St :=
  ⟨st.vars, st.trace ++ [⟨m, c, snap⟩]⟩

/-- One entry of `snapshotTypes`: `T<i>` with its resolved string, or `?`
when unbound.  `prune` is called on bound variables, so taking a snapshot
path-compresses the store, exactly as in the source. -/
def snapshotOne (fuel : Nat) (v : Vars) (i : Nat) : (String × String) × Vars :=
  match getInstance v i with
  | none => (("T" ++ Nat.repr i, "?"), v)
  | some _ =>
    let (r, v') := prune fuel (.tVar i) v
    (("T" ++ Nat.repr i, tyToString fuel v' r), v')

def snapshotGo (fuel : Nat) : List Nat → Vars → List (String × String) × Vars
  | [], v => ([], v)
  | i :: is, v =>
    let (p, v1) := snapshotOne fuel v i
    let (ps, v2) := snapshotGo fuel is v1
    (p :: ps, v2)

/-- Function `snapshotTypes` from part_000. -/
def snapshotTypes (fuel : Nat) (v : Vars) : List (String × String) × Vars :=
  snapshotGo fuel (List.range v.length) v

/-- Function `newTypeVar`: appends a fresh unbound variable named `T<old length>`
to the registry and returns it. -/
def newTypeVar (st : St) : Ty × St :=
  (.tVar st.vars.length, ⟨st.vars ++ [none], st.trace⟩)

/-- Function `unify` from part_000.  JS `t1 === t2` is reference equality; on
pruned values two variables are the same object iff they have the same
index, and for the other type forms the structural-equality shortcut is
observationally equivalent (the JS recursion on equal structures succeeds
without emitting any event or binding), so the test is modelled as
structural equality. -/
def unify : Nat → String → Ty → Ty → St → Except Err Unit × St
  | 0, _, _, _, st => (.error .outOfFuel, st)
  | fuel + 1, ctx, a, b, st =>
    let (t1, v1) := prune fuel a st.vars
    let (t2, v2) := prune fuel b v1
    if t1 = t2 then (.ok (), ⟨v2, st.trace⟩)
    else
      match t1, t2 with
      | .tInt, .tInt => (.ok (), ⟨v2, st.trace⟩)
      | .tBool, .tBool => (.ok (), ⟨v2, st.trace⟩)
      | .tVar n, u =>
        let (occ, v3) := occursIn fuel n u v2
        if occ then
          (.error (.msg ("Occurs Check: Ciclo infinito ("
              ++ tyToString fuel v3 (.tVar n) ++ " em "
              ++ tyToString fuel v3 u ++ ")")), ⟨v3, st.trace⟩)
        else
          let v4 := setInstance v3 n u
          let m := "UNIFICAR: T" ++ Nat.repr n ++ " ⟵ "
              ++ tyToString fuel v4 u ++ " (" ++ ctx ++ ")"
          let (snap, v5) := snapshotTypes fuel v4
          (.ok (), ⟨v5, st.trace ++ [⟨m, "success", snap⟩]⟩)
      | u, .tVar n => unify fuel ctx (.tVar n) u ⟨v2, st.trace⟩
      | .tArrow p1 r1, .tArrow p2 r2 =>
        match unify fuel "Param Função" p1 p2 ⟨v2, st.trace⟩ with
        | (.error e, st') => (.error e, st')
        | (.ok _, st') => unify fuel "Retorno Função" r1 r2 st'
      | .tList e1, .tList e2 => unify fuel "Elemento Lista" e1 e2 ⟨v2, st.trace⟩
      | _, _ =>
        (.error (.msg ("Incompatível: " ++ tyToString fuel v2 t1
            ++ " vs " ++ tyToString fuel v2 t2)), ⟨v2, st.trace⟩)

/-- The own properties of the environment object: the bindings `analyze`
adds by spread, later extensions shadowing earlier ones. -/
def envLookup : List (String × Ty) → String → Option Ty
  | [], _ => none
  | (k, t) :: rest, n => if k = n then some t else envLookup rest n

/-- JS property lookup `env[name]` followed by the `if (!t)` truthiness
test, as both analyzers perform it: an own binding (always a truthy
`Type` object) shadows the prototype; a name with no binding still finds
the truthy inherited `Object.prototype` member; only otherwise is the
result `undefined`, i.e. `none`. -/
def envGet (env : List (String × Ty)) (n : String) : Option Ty :=
  match envLookup env n with
  | some t => some t
  | none => if n ∈ objectProtoMembers then some (.tHost n) else none

/-- Append the `ast`-category entry event that `analyze` records for every
node it visits. -/
def pushAstEvent (fuel : Nat) (st : St) (e : Expr) : St :=
  let (snap, v0) := snapshotTypes fuel st.vars
  pushEvent ⟨v0, st.trace⟩ ("AST: Analisando " ++ exprLabel e) "ast" snap

/-- Function `analyze` from part_000 (the Algorithm W pass).  The recursion is
structural on the expression; `fuel` only feeds the unification engine. -/
def analyze (fuel : Nat) (env : List (String × Ty)) :
    Expr → St → Except Err Ty × St
  | e, st =>
    let st1 := pushAstEvent fuel st e
    match e with
    | .eInt _ => (.ok .tInt, st1)
    | .eBool _ => (.ok .tBool, st1)
    | .eVar n =>
      match envGet env n with
      | none => (.error (.msg ("Variável \x27" ++ n ++ "\x27 não existe")), st1)
      | some t => (.ok t, st1)
    | .eEmptyList =>
      let (tv, st2) := newTypeVar st1
      (.ok (.tList tv), st2)
    | .eList h tl =>
      match analyze fuel env h st1 with
      | (.error e, st') => (.error e, st')
      | (.ok tHead, st2) =>
        match analyze fuel env tl st2 with
        | (.error e, st') => (.error e, st')
        | (.ok tTail, st3) =>
          match unify fuel "Lista Homogênea" tTail (.tList tHead) st3 with
          | (.error e, st') => (.error e, st')
          | (.ok _, st4) => (.ok (.tList tHead), st4)
    | .eBinOp op l r =>
      match analyze fuel env l st1 with
      | (.error e, st') => (.error e, st')
      | (.ok tL, st2) =>
        match analyze fuel env r st2 with
        | (.error e, st') => (.error e, st')
        | (.ok tR, st3) =>
          let (snap, v4) := snapshotTypes fuel st3.vars
          let st5 := pushEvent ⟨v4, st3.trace⟩
              ("RESTRIÇÃO: " ++ op ++ " exige tipos compatíveis") "info" snap
          if op = "+" || op = "-" || op = "*" || op = "/" then
            match unify fuel ("Esq de \x27" ++ op ++ "\x27") tL .tInt st5 with
            | (.error e, st') => (.error e, st')
            | (.ok _, st6) =>
              match unify fuel ("Dir de \x27" ++ op ++ "\x27") tR .tInt st6 with
              | (.error e, st') => (.error e, st')
              | (.ok _, st7) => (.ok .tInt, st7)
          else
            match unify fuel ("Operandos de \x27" ++ op ++ "\x27") tL tR st5 with
            | (.error e, st') => (.error e, st')
            | (.ok _, st6) => (.ok .tBool, st6)
    | .eIf c t e' =>
      match analyze fuel env c st1 with
      | (.error e, st') => (.error e, st')
      | (.ok tC, st2) =>
        match unify fuel "Condição If" tC .tBool st2 with
        | (.error e, st') => (.error e, st')
        | (.ok _, st3) =>
          match analyze fuel env t st3 with
          | (.error e, st') => (.error e, st')
          | (.ok tT, st4) =>
            match analyze fuel env e' st4 with
            | (.error e, st') => (.error e, st')
            | (.ok tE, st5) =>
              match unify fuel "Ramos Then/Else" tT tE st5 with
              | (.error e, st') => (.error e, st')
              | (.ok _, st6) => (.ok tT, st6)
    | .eFun p b =>
      let (pT, st2) := newTypeVar st1
      let (snap, v3) := snapshotTypes fuel st2.vars
      let st4 := pushEvent ⟨v3, st2.trace⟩
          ("ESCOPO: " ++ p ++ " : " ++ "T" ++ Nat.repr (st1.vars.length))
          "warn" snap
      match analyze fuel ((p, pT) :: env) b st4 with
      | (.error e, st') => (.error e, st')
      | (.ok bT, st5) => (.ok (.tArrow pT bT), st5)
    | .eApp f a =>
      match analyze fuel env f st1 with
      | (.error e, st') => (.error e, st')
      | (.ok tF, st2) =>
        match analyze fuel env a st2 with
        | (.error e, st') => (.error e, st')
        | (.ok tA, st3) =>
          let (tR, st4) := newTypeVar st3
          match unify fuel "Aplicação" tF (.tArrow tA tR) st4 with
          | (.error e, st') => (.error e, st')
          | (.ok _, st5) => (.ok tR, st5)
    | .eLet n v b =>
      match analyze fuel env v st1 with
      | (.error e, st') => (.error e, st')
      | (.ok vT, st2) => analyze fuel ((n, vT) :: env) b st2

def errMsg : Err → String
  | .msg s => s
  | .outOfFuel => "OUT_OF_FUEL"

/-- The part of `runAnalysis` that runs once an AST exists: analyze under
the empty environment and a fresh registry, then prune and stringify the
result; on failure, record the `FALHA` error event the `catch` block
records. -/
def analyzeFromAst (fuel : Nat) (ast : Expr) : Except Err String × St :=
  match analyze fuel [] ast ⟨[], []⟩ with
  | (.ok t, st) =>
    let (p, v') := prune fuel t st.vars
    (.ok (tyToString fuel v' p), ⟨v', st.trace⟩)
  | (.error e, st) =>
    let (snap, v') := snapshotTypes fuel st.vars
    (.error e, pushEvent ⟨v', st.trace⟩ ("FALHA: " ++ errMsg e) "error" snap)

/-- Function `runAnalysis` from part_000: tokenize, parse one expression (leftover
tokens are never inspected), analyze, prune, stringify.  Any thrown error
is caught, recorded as a `FALHA` trace event, and reported. -/
def runAnalysis (fuel : Nat) (src : String) : Except Err String × St :=
  match parseExpression fuel (tokenize src) with
  | .ok (ast, _rest) => analyzeFromAst fuel ast
  | .error e =>
    let (snap, v') := snapshotTypes fuel ([] : Vars)
    (.error e, pushEvent ⟨v', []⟩ ("FALHA: " ++ errMsg e) "error" snap)

-- ### The older engine of src/src/App.js (suffix `App`)
-- Its `Type`, `prune` and the type `toString` methods are character for
-- character the same code as in part_000 minus the `TypeList` clauses,
-- which its types never reach, so `Ty`, `prune` and `tyToString` are
-- shared; the tokenizer, parser, `occursIn`, `unify` and `analyze` differ
-- and are embedded separately below.

/-- Function `tokenize` from App.js: no `::` operator, no bracket/comma
punctuation (such characters are silently skipped by the regex scan). -/
def tokenizeGoApp : Nat → List Char → List Token
  | 0, _ => []
  | _, [] => []
  | fuel + 1, c :: cs =>
    if isWs c then tokenizeGoApp fuel ((c :: cs).dropWhile isWs)
    else if isDigitCh c then
      let ds := (c :: cs).takeWhile isDigitCh
      .num (digitsToNat ds) :: tokenizeGoApp fuel ((c :: cs).dropWhile isDigitCh)
    else
      match takeFirstLit ["true", "false"] (c :: cs) with
      | some (w, rest) => .bool (w = "true") :: tokenizeGoApp fuel rest
      | none =>
        match takeFirstLit ["let", "in", "if", "then", "else", "fun"] (c :: cs) with
        | some (w, rest) => .kw w :: tokenizeGoApp fuel rest
        | none =>
          match takeLit "->" (c :: cs) with
          | some rest => .arrow :: tokenizeGoApp fuel rest
          | none =>
            match takeFirstLit ["==", "!=", "<=", ">=", "<", ">", "+", "-", "*", "/", "="] (c :: cs) with
            | some (w, rest) => .op w :: tokenizeGoApp fuel rest
            | none =>
              if isIdStart c then
                let ds := (c :: cs).takeWhile isIdCh
                .id (String.mk ds) :: tokenizeGoApp fuel ((c :: cs).dropWhile isIdCh)
              else if c = '(' || c = ')' then
                .punc (String.mk [c]) :: tokenizeGoApp fuel cs
              else
                tokenizeGoApp fuel cs

def tokenizeApp (s : String) : List Token :=
  tokenizeGoApp (s.length + 1) s.data

/-- App.js `expect` message:
`Erro de Sintaxe: Esperado <val>, encontrado <peek val>`. -/
def expectedMsgApp (want : String) (found : Option Token) : String :=
  "Erro de Sintaxe: Esperado " ++ want ++ ", encontrado " ++ tokVal found

/-- App.js `parseApp` loop condition (no `[` atoms). -/
def atomStartApp : List Token → Bool
  | .num _ :: _ => true
  | .bool _ :: _ => true
  | .id _ :: _ => true
  | .punc "(" :: _ => true
  | _ => false

mutual

/-- App.js `Parser.parseAtom` (no list literals). -/
def parseAtomApp : Nat → List Token → Except Err (Expr × List Token)
  | 0, _ => .error .outOfFuel
  | fuel + 1, ts =>
    match ts with
    | [] => .error (.msg "Fim de arquivo inesperado")
    | .num v :: rest => .ok (.eInt v, rest)
    | .bool b :: rest => .ok (.eBool b, rest)
    | .id n :: rest => .ok (.eVar n, rest)
    | .punc "(" :: rest =>
      match parseExpressionApp fuel rest with
      | .error e => .error e
      | .ok (e, r2) =>
        match r2 with
        | .punc ")" :: r3 => .ok (e, r3)
        | _ => .error (.msg (expectedMsgApp ")" r2.head?))
    | t :: _ => .error (.msg ("Token inesperado: " ++ tokVal (some t)))

def parseAppApp : Nat → List Token → Except Err (Expr × List Token)
  | 0, _ => .error .outOfFuel
  | fuel + 1, ts =>
    match parseAtomApp fuel ts with
    | .error e => .error e
    | .ok (e, rest) => parseAppLoopApp fuel e rest

def parseAppLoopApp : Nat → Expr → List Token → Except Err (Expr × List Token)
  | 0, _, _ => .error .outOfFuel
  | fuel + 1, acc, ts =>
    if atomStartApp ts then
      match parseAtomApp fuel ts with
      | .error e => .error e
      | .ok (a, rest) => parseAppLoopApp fuel (.eApp acc a) rest
    else .ok (acc, ts)

def parseBinaryApp : Nat → List Token → Except Err (Expr × List Token)
  | 0, _ => .error .outOfFuel
  | fuel + 1, ts =>
    match parseAppApp fuel ts with
    | .error e => .error e
    | .ok (l, rest) =>
      match rest with
      | .op v :: r2 =>
        if v = "=" then .ok (l, .op v :: r2)
        else
          match parseBinaryApp fuel r2 with
          | .error e => .error e
          | .ok (r, r3) => .ok (.eBinOp v l r, r3)
      | _ => .ok (l, rest)

def parseExpressionApp : Nat → List Token → Except Err (Expr × List Token)
  | 0, _ => .error .outOfFuel
  | fuel + 1, ts =>
    match ts with
    | .kw "let" :: rest =>
      match rest with
      | .id n :: r2 =>
        match r2 with
        | .op "=" :: r3 =>
          match parseExpressionApp fuel r3 with
          | .error e => .error e
          | .ok (v, r4) =>
            match r4 with
            | .kw "in" :: r5 =>
              match parseExpressionApp fuel r5 with
              | .error e => .error e
              | .ok (b, r6) => .ok (.eLet n v b, r6)
            | _ => .error (.msg (expectedMsgApp "in" r4.head?))
        | _ => .error (.msg (expectedMsgApp "=" r2.head?))
      | _ => .error (.msg "Esperado identificador após \x27let\x27")
    | .kw "fun" :: rest =>
      match rest with
      | .id p :: r2 =>
        match r2 with
        | .arrow :: r3 =>
          match parseExpressionApp fuel r3 with
          | .error e => .error e
          | .ok (b, r4) => .ok (.eFun p b, r4)
        | _ => .error (.msg (expectedMsgApp "ARROW" r2.head?))
      | _ => .error (.msg "Esperado parâmetro após \x27fun\x27")
    | .kw "if" :: rest =>
      match parseExpressionApp fuel rest with
      | .error e => .error e
      | .ok (c, r2) =>
        match r2 with
        | .kw "then" :: r3 =>
          match parseExpressionApp fuel r3 with
          | .error e => .error e
          | .ok (t, r4) =>
            match r4 with
            | .kw "else" :: r5 =>
              match parseExpressionApp fuel r5 with
              | .error e => .error e
              | .ok (e, r6) => .ok (.eIf c t e, r6)
            | _ => .error (.msg (expectedMsgApp "else" r4.head?))
        | _ => .error (.msg (expectedMsgApp "then" r2.head?))
    | _ => parseBinaryApp fuel ts

end

/-- App.js state: instance store plus the logger's `(msg, type)` list
(no memory snapshots in this version). -/
structure StApp where
  vars : Vars
  log : List (String × String)
deriving DecidableEq, Repr

def pushLog (st : StApp) (m c : String) : StApp :=
  ⟨st.vars, st.log ++ [(m, c)]⟩

/-- App.js `occursIn`: like part_000's but with no `TypeList` clause. -/
def occursInApp : Nat → Nat → Ty → Vars → Bool × Vars
  | 0, _, _, v => (false, v)
  | fuel + 1, n, t, v =>
    let (t', v') := prune fuel t v
    match t' with
    | .tVar m => (m = n, v')
    | .tArrow p r =>
      let (b1, v1) := occursInApp fuel n p v'
      if b1 then (true, v1) else occursInApp fuel n r v1
    | _ => (false, v')

def newTypeVarApp (st : StApp) : Ty × StApp :=
  (.tVar st.vars.length, ⟨st.vars ++ [none], st.log⟩)

/-- App.js `unify`: same algorithm as part_000's minus the list clause,
with its own messages and `contextMsg || 'Resolução de restrição'`
default. -/
def unifyApp : Nat → String → Ty → Ty → StApp → Except Err Unit × StApp
  | 0, _, _, _, st => (.error .outOfFuel, st)
  | fuel + 1, ctx, a, b, st =>
    let (t1, v1) := prune fuel a st.vars
    let (t2, v2) := prune fuel b v1
    if t1 = t2 then (.ok (), ⟨v2, st.log⟩)
    else
      match t1, t2 with
      | .tInt, .tInt => (.ok (), ⟨v2, st.log⟩)
      | .tBool, .tBool => (.ok (), ⟨v2, st.log⟩)
      | .tVar n, u =>
        let (occ, v3) := occursInApp fuel n u v2
        if occ then
          (.error (.msg ("Erro de Tipo Infinito: "
              ++ tyToString fuel v3 (.tVar n) ++ " ocorre dentro de "
              ++ tyToString fuel v3 u)), ⟨v3, st.log⟩)
        else
          let v4 := setInstance v3 n u
          let m := "UNIFICAR: T" ++ Nat.repr n ++ " agora é "
              ++ tyToString fuel v4 u ++ " ("
              ++ (if ctx = "" then "Resolução de restrição" else ctx) ++ ")"
          (.ok (), ⟨v4, st.log ++ [(m, "success")]⟩)
      | u, .tVar n => unifyApp fuel ctx (.tVar n) u ⟨v2, st.log⟩
      | .tArrow p1 r1, .tArrow p2 r2 =>
        match unifyApp fuel "Parâmetros de função devem coincidir" p1 p2 ⟨v2, st.log⟩ with
        | (.error e, st') => (.error e, st')
        | (.ok _, st') => unifyApp fuel "Retorno de função deve coincidir" r1 r2 st'
      | _, _ =>
        (.error (.msg ("Tipo Incompatível: Esperado " ++ tyToString fuel v2 t1
            ++ ", Encontrado " ++ tyToString fuel v2 t2)), ⟨v2, st.log⟩)

/-- Function `analyze` from App.js.  Its `EBinOp` arm returns only for arithmetic
ops and for `== != < >`; any other operator (so `<=` and `>=`, which the
parser accepts) falls through the remaining `instanceof` checks to the
final `throw new Error("Expressão Desconhecida")`.  List nodes have no
class in App.js at all and land on the same throw. -/
def analyzeApp (fuel : Nat) (env : List (String × Ty)) :
    Expr → StApp → Except Err Ty × StApp
  | e, st =>
    match e with
    | .eInt _ => (.ok .tInt, st)
    | .eBool _ => (.ok .tBool, st)
    | .eVar n =>
      match envGet env n with
      | none => (.error (.msg ("Variável Indefinida: \x27" ++ n ++ "\x27")), st)
      | some t => (.ok t, st)
    | .eBinOp op l r =>
      let st1 := pushLog st ("RESTRIÇÃO: Operador \x27" ++ op
          ++ "\x27 exige operandos compatíveis.") "info"
      match analyzeApp fuel env l st1 with
      | (.error e, st') => (.error e, st')
      | (.ok tL, st2) =>
        match analyzeApp fuel env r st2 with
        | (.error e, st') => (.error e, st')
        | (.ok tR, st3) =>
          if op = "+" || op = "-" || op = "*" || op = "/" then
            match unifyApp fuel ("Lado esquerdo de \x27" ++ op
                ++ "\x27 deve ser Int") tL .tInt st3 with
            | (.error e, st') => (.error e, st')
            | (.ok _, st4) =>
              match unifyApp fuel ("Lado direito de \x27" ++ op
                  ++ "\x27 deve ser Int") tR .tInt st4 with
              | (.error e, st') => (.error e, st')
              | (.ok _, st5) => (.ok .tInt, st5)
          else if op = "==" || op = "!=" || op = "<" || op = ">" then
            match unifyApp fuel ("Operandos de \x27" ++ op
                ++ "\x27 devem ser iguais") tL tR st3 with
            | (.error e, st') => (.error e, st')
            | (.ok _, st4) => (.ok .tBool, st4)
          else (.error (.msg "Expressão Desconhecida"), st3)
    | .eIf c t e' =>
      let st1 := pushLog st
          "RESTRIÇÃO: Condição do \x27if\x27 deve ser Bool, ramos devem ser iguais." "info"
      match analyzeApp fuel env c st1 with
      | (.error e, st') => (.error e, st')
      | (.ok tC, st2) =>
        match unifyApp fuel "Condição do \x27if\x27" tC .tBool st2 with
        | (.error e, st') => (.error e, st')
        | (.ok _, st3) =>
          match analyzeApp fuel env t st3 with
          | (.error e, st') => (.error e, st')
          | (.ok tT, st4) =>
            match analyzeApp fuel env e' st4 with
            | (.error e, st') => (.error e, st')
            | (.ok tE, st5) =>
              match unifyApp fuel "Ramo \x27else\x27 deve igualar ramo \x27then\x27" tT tE st5 with
              | (.error e, st') => (.error e, st')
              | (.ok _, st6) => (.ok tT, st6)
    | .eFun p b =>
      let (pT, st2) := newTypeVarApp st
      let st3 := pushLog st2 ("NOVO ESCOPO: Parâmetro \x27" ++ p
          ++ "\x27 assumiu tipo novo T" ++ Nat.repr st.vars.length) "info"
      match analyzeApp fuel ((p, pT) :: env) b st3 with
      | (.error e, st') => (.error e, st')
      | (.ok bT, st4) => (.ok (.tArrow pT bT), st4)
    | .eApp f a =>
      match analyzeApp fuel env f st with
      | (.error e, st') => (.error e, st')
      | (.ok tF, st2) =>
        match analyzeApp fuel env a st2 with
        | (.error e, st') => (.error e, st')
        | (.ok tA, st3) =>
          let (tR, st4) := newTypeVarApp st3
          let st5 := pushLog st4 ("RESTRIÇÃO: Aplicando função "
              ++ tyToString fuel st4.vars tF ++ " ao argumento "
              ++ tyToString fuel st4.vars tA) "info"
          match unifyApp fuel "Aplicação de função" tF (.tArrow tA tR) st5 with
          | (.error e, st') => (.error e, st')
          | (.ok _, st6) => (.ok tR, st6)
    | .eLet n v b =>
      let st1 := pushLog st ("LET: Inferindo tipo para \x27" ++ n ++ "\x27...") "info"
      match analyzeApp fuel env v st1 with
      | (.error e, st') => (.error e, st')
      | (.ok vT, st2) =>
        let st3 := pushLog st2 ("AMBIENTE: \x27" ++ n ++ "\x27 definido como "
            ++ tyToString fuel st2.vars vT) "info"
        analyzeApp fuel ((n, vT) :: env) b st3
    | .eList _ _ => (.error (.msg "Expressão Desconhecida"), st)
    | .eEmptyList => (.error (.msg "Expressão Desconhecida"), st)

/-- Function `runInference` from App.js: numbered progress logs, a `warn` log when
tokens are left over after the parse, a `SUCESSO`/`ERRO` log, and the
result or the caught error message. -/
def runInferenceApp (fuel : Nat) (src : String) : Except Err String × StApp :=
  let l1 := [("1. Tokenizando entrada...", "info")]
  let ts := tokenizeApp src
  let l2 := l1 ++ [("2. Gerando AST (Parser)...", "info")]
  match parseExpressionApp fuel ts with
  | .error e => (.error e, ⟨[], l2 ++ [("ERRO: " ++ errMsg e, "error")]⟩)
  | .ok (ast, rest) =>
    let l3 := if rest.isEmpty then l2
      else l2 ++ [("Aviso: Tokens sobrando após análise.", "warn")]
    let l4 := l3 ++ [("3. Iniciando Algoritmo W (Inferência)...", "info")]
    match analyzeApp fuel [] ast ⟨[], l4⟩ with
    | (.error e, st) => (.error e, pushLog st ("ERRO: " ++ errMsg e) "error")
    | (.ok t, st) =>
      let (p, v') := prune fuel t st.vars
      let ft := tyToString fuel v' p
      (.ok ft, pushLog ⟨v', st.log⟩ ("SUCESSO: Tipo Inferido: " ++ ft) "success")

-- ### Claim-support definitions

/-- Is this type syntactically a type variable? -/
def Ty.isVar : Ty → Bool
  | .tVar _ => true
  | _ => false

/-- Type-variable names as the engine allocates them: `T` followed by at
least one digit. -/
def isTypeVarNameCh : List Char → Bool
  | 'T' :: d :: ds => (d :: ds).all isDigitCh
  | _ => false

/-- Split a character list at the first occurrence of `" -> "`. -/
def splitOnArrow : List Char → Option (List Char × List Char)
  | [] => none
  | c :: cs =>
    if [' ', '-', '>', ' '].isPrefixOf (c :: cs) then some ([], (c :: cs).drop 4)
    else
      match splitOnArrow cs with
      | some (l, r) => some (c :: l, r)
      | none => none

/-- The shape claimed by C1 for the final type string of
`fun x -> x + 1`: a type-variable name, ` -> `, then `Int`. -/
def c1ClaimedShape (s : String) : Bool :=
  match splitOnArrow s.data with
  | some (l, r) => isTypeVarNameCh l && r = "Int".data
  | none => false

/-- An AST with no list nodes (`Cons` / `EmptyList`). -/
def listFree : Expr → Bool
  | .eInt _ => true
  | .eBool _ => true
  | .eVar _ => true
  | .eBinOp _ l r => listFree l && listFree r
  | .eIf c t e => listFree c && listFree t && listFree e
  | .eFun _ b => listFree b
  | .eLet _ v b => listFree v && listFree b
  | .eApp f a => listFree f && listFree a
  | .eList _ _ => false
  | .eEmptyList => false

/-- A token sequence with no `[` punctuation token. -/
def noBracket : List Token → Bool
  | [] => true
  | t :: ts => if t = .punc "[" then false else noBracket ts

/-- A fully-resolved type in the sense of the spec: every type variable
reachable from `t` — through arrow/list structure or through `instance`
links — has a non-empty `instance`.  (The derivation being finite also
rules out cyclic `instance` chains.) -/
inductive Resolved (v : Vars) : Ty → Prop
  | rint : Resolved v .tInt
  | rbool : Resolved v .tBool
  | rarrow {p r : Ty} : Resolved v p → Resolved v r → Resolved v (.tArrow p r)
  | rlist {e : Ty} : Resolved v e → Resolved v (.tList e)
  | rvar {n : Nat} {t : Ty} : getInstance v n = some t → Resolved v t →
      Resolved v (.tVar n)

end HMViz

deriving instance DecidableEq for Except

-- ### Claim theorems

namespace HMViz

/-- C1 counterexample: the top-level run on `"fun x -> x + 1"` succeeds,
but the final stringified type is `"Int -> Int"`, which does not have the
claimed structure `var -> Int` (the left of the arrow is `Int`, not a
type-variable name): `TypeVar.toString` prints through the `instance`
binding, and the parameter variable has been bound to `Int`. -/
theorem c1_counterexample :
    (runAnalysis 50 "fun x -> x + 1").1 = .ok "Int -> Int" ∧
    c1ClaimedShape "Int -> Int" = false := by decide

/-- C1 amended: the run on `"fun x -> x + 1"` succeeds and the final
stringified type is `"Int -> Int"` — the parameter variable `T0` has been
bound to `Int` by unification, and printing follows that binding. -/
theorem c1_amended :
    (runAnalysis 50 "fun x -> x + 1").1 = .ok "Int -> Int" ∧
    getInstance (runAnalysis 50 "fun x -> x + 1").2.vars 0 = some .tInt := by
  decide

/-- C2 counterexample: the run on `"fun f -> f 1"` succeeds; the final
type is `T0 -> T1` where `T0` is bound to (prunes to) the arrow
`Int -> T1`, yet the printed string `"Int -> T1 -> T1"` contains no
parenthesis at all — the parameter position resolves to an arrow type but
is not parenthesized, because `TypeArrow.toString` tests `instanceof
TypeArrow` on the syntactic parameter, which here is a `TypeVar`. -/
theorem c2_counterexample :
    (runAnalysis 50 "fun f -> f 1").1 = .ok "Int -> T1 -> T1" ∧
    (analyze 50 [] (.eFun "f" (.eApp (.eVar "f") (.eInt 1))) ⟨[], []⟩).1 =
      .ok (.tArrow (.tVar 0) (.tVar 1)) ∧
    (prune 50 (.tVar 0)
      (analyze 50 [] (.eFun "f" (.eApp (.eVar "f") (.eInt 1))) ⟨[], []⟩).2.vars).1 =
      .tArrow .tInt (.tVar 1) ∧
    ("Int -> T1 -> T1".data.contains '(') = false := by decide

/-- C2 amended: the renderer parenthesizes the parameter of an arrow
exactly when the parameter is *directly* an arrow value; a parameter that
is a type variable — even one whose instance resolves to an arrow —
prints unparenthesized, and the return side is always rendered without
added parentheses. -/
theorem c2_amended :
    (∀ (fuel : Nat) (v : Vars) (p r : Ty),
      tyToString (fuel + 1) v (.tArrow p r) =
        (match p with
         | .tArrow _ _ => "(" ++ tyToString fuel v p ++ ")"
         | _ => tyToString fuel v p) ++ " -> " ++ tyToString fuel v r) ∧
    (∀ (fuel : Nat) (v : Vars) (n : Nat) (r : Ty),
      tyToString (fuel + 1) v (.tArrow (.tVar n) r) =
        tyToString fuel v (.tVar n) ++ " -> " ++ tyToString fuel v r) := by
  constructor
  · intro fuel v p r
    cases p <;> simp [tyToString]
  · intro fuel v n r
    simp [tyToString]

/-- C3: the App.js parser accepts `<=` into a `BinOp` node, but the
App.js analyzer's `BinOp` rule returns only for `+ - * /` and
`== != < >`, so `"1 <= 2"` falls through every `instanceof` check to the
supposedly unreachable `Expressão Desconhecida` (unknown expression)
throw.  The part_000 analyzer handles the same input as specified,
returning `Bool`. -/
theorem c3_unknown_expression_reached :
    parseExpressionApp 50 (tokenizeApp "1 <= 2") =
      .ok (.eBinOp "<=" (.eInt 1) (.eInt 2), []) ∧
    (runInferenceApp 50 "1 <= 2").1 = .error (.msg "Expressão Desconhecida") ∧
    (runAnalysis 50 "1 <= 2").1 = .ok "Bool" := by decide

/-- C4 counterexample: the claimed "error iff no binding" is false of the
code, because `env[name]` on the plain environment object performs JS
prototype-chain lookup: `"toString"` has no binding in the empty
environment, yet analysis does not raise the undefined-variable error —
it returns the truthy inherited `Object.prototype.toString` function,
and the whole run on the source text `"toString"` succeeds, printing the
native function. -/
theorem c4_counterexample :
    envLookup [] "toString" = none ∧
    analyze 5 [] (.eVar "toString") ⟨[], []⟩ =
      (.ok (.tHost "toString"), pushAstEvent 5 ⟨[], []⟩ (.eVar "toString")) ∧
    (runAnalysis 50 "toString").1 =
      .ok "function toString() \x7b [native code] \x7d" := by decide

/-- C4 amended: analyzing `Var(name)` under `env` fails — with exactly
the undefined-variable error — iff the property lookup `env[name]` finds
nothing, i.e. iff `name` has no binding in `env` *and* is not one of the
inherited `Object.prototype` member names; when the lookup finds a value
(a binding, or the truthy inherited member for unbound names such as
`toString`), that value is returned unchanged and no error is raised,
the only state change being the `ast`-category entry trace event that
every node records. -/
theorem c4_var_lookup (fuel : Nat) (env : List (String × Ty)) (n : String) (st : St) :
    (envGet env n = none →
      analyze fuel env (.eVar n) st =
        (.error (.msg ("Variável \x27" ++ n ++ "\x27 não existe")),
         pushAstEvent fuel st (.eVar n))) ∧
    (∀ t, envGet env n = some t →
      analyze fuel env (.eVar n) st = (.ok t, pushAstEvent fuel st (.eVar n))) ∧
    (envGet env n = none ↔ envLookup env n = none ∧ n ∉ objectProtoMembers) := by
  refine ⟨?_, ?_, ?_⟩
  · intro h
    simp [analyze, h]
  · intro t h
    simp [analyze, h]
  · by_cases hm : n ∈ objectProtoMembers <;>
      cases h : envLookup env n <;> simp [envGet, h, hm]

/-- C4 witness: concrete instances of all three directions — a bound
name, an unbound non-prototype name, and the unbound inherited name
`toString`. -/
theorem c4_var_lookup_witness :
    envGet [("x", Ty.tInt)] "x" = some .tInt ∧
    analyze 5 [("x", Ty.tInt)] (.eVar "x") ⟨[], []⟩ =
      (.ok .tInt, pushAstEvent 5 ⟨[], []⟩ (.eVar "x")) ∧
    envGet [] "y" = none ∧
    analyze 5 [] (.eVar "y") ⟨[], []⟩ =
      (.error (.msg "Variável \x27y\x27 não existe"),
       pushAstEvent 5 ⟨[], []⟩ (.eVar "y")) ∧
    envGet [] "toString" = some (.tHost "toString") ∧
    analyze 5 [] (.eVar "toString") ⟨[], []⟩ =
      (.ok (.tHost "toString"), pushAstEvent 5 ⟨[], []⟩ (.eVar "toString")) :=
  ⟨by decide,
   (c4_var_lookup 5 [("x", Ty.tInt)] "x" ⟨[], []⟩).2.1 .tInt (by decide),
   by decide,
   (c4_var_lookup 5 [] "y" ⟨[], []⟩).1 (by decide),
   by decide,
   (c4_var_lookup 5 [] "toString" ⟨[], []⟩).2.1 (.tHost "toString") (by decide)⟩

/-- C6: binary parsing has a single precedence level and is right
associative: whenever the input at the binary level is `a OP1 b OP2 c`
(for any non-`=` operator tokens), the result is
`BinOp(OP1, a, BinOp(OP2, b, c))`. -/
theorem c6_binary_right_assoc (fuel : Nat) (ts rest1 rest2 rest3 : List Token)
    (a b c : Expr) (op1 op2 : String)
    (h1 : parseApp (fuel + 1) ts = .ok (a, .op op1 :: rest1)) (hne1 : op1 ≠ "=")
    (h2 : parseApp fuel rest1 = .ok (b, .op op2 :: rest2)) (hne2 : op2 ≠ "=")
    (h3 : parseBinary fuel rest2 = .ok (c, rest3)) :
    parseBinary (fuel + 1 + 1) ts = .ok (.eBinOp op1 a (.eBinOp op2 b c), rest3) := by
  simp [parseBinary, h1, h2, h3, hne1, hne2]

/-- C6 witness: `1 - 2 - 3` parses as `1 - (2 - 3)`, and `2 * 3 + 4`
parses as `2 * (3 + 4)` — `*` does not bind tighter than `+`. -/
theorem c6_binary_right_assoc_witness :
    parseBinary (48 + 1 + 1) (tokenize "1 - 2 - 3") =
      .ok (.eBinOp "-" (.eInt 1) (.eBinOp "-" (.eInt 2) (.eInt 3)), []) ∧
    parseBinary (48 + 1 + 1) (tokenize "2 * 3 + 4") =
      .ok (.eBinOp "*" (.eInt 2) (.eBinOp "+" (.eInt 3) (.eInt 4)), []) :=
  ⟨c6_binary_right_assoc 48 (tokenize "1 - 2 - 3")
     [.num 2, .op "-", .num 3] [.num 3] []
     (.eInt 1) (.eInt 2) (.eInt 3) "-" "-"
     (by decide) (by decide) (by decide) (by decide) (by decide),
   c6_binary_right_assoc 48 (tokenize "2 * 3 + 4")
     [.num 3, .op "+", .num 4] [.num 4] []
     (.eInt 2) (.eInt 3) (.eInt 4) "*" "+"
     (by decide) (by decide) (by decide) (by decide) (by decide)⟩

/-- C10: leftover tokens after a complete top-level expression never
cause a failure: whenever the token sequence of `src` parses to `ast`
with any remainder `rest`, the run's outcome is exactly the outcome of
analyzing `ast` — the remainder is never inspected.  (The App.js variant
additionally logs a warning; see the witness.) -/
theorem c10_leftover_ignored (fuel : Nat) (src : String) (ast : Expr)
    (rest : List Token)
    (h : parseExpression fuel (tokenize src) = .ok (ast, rest)) :
    runAnalysis fuel src = analyzeFromAst fuel ast := by
  simp [runAnalysis, h]

/-- C10 witness: `"1 then 2"` parses as the prefix `1` with leftover
tokens `then 2`, and the run succeeds with type `Int`; the App.js runner
also succeeds, logging the leftover-tokens warning. -/
theorem c10_leftover_ignored_witness :
    parseExpression 50 (tokenize "1 then 2") = .ok (.eInt 1, [.kw "then", .num 2]) ∧
    runAnalysis 50 "1 then 2" = analyzeFromAst 50 (.eInt 1) ∧
    (runAnalysis 50 "1 then 2").1 = .ok "Int" ∧
    (runInferenceApp 50 "1 then 2").1 = .ok "Int" ∧
    ("Aviso: Tokens sobrando após análise.", "warn") ∈ (runInferenceApp 50 "1 then 2").2.log :=
  ⟨by decide,
   c10_leftover_ignored 50 "1 then 2" (.eInt 1) [.kw "then", .num 2] (by decide),
   by decide, by decide, by decide⟩

end HMViz

namespace HMViz

-- Helper lemmas about the store

theorem getInstance_some_lt (v : Vars) (n : Nat) (b : Ty)
    (h : getInstance v n = some b) : n < v.length := by
  by_contra hle
  push_neg at hle
  have hn : v.get? n = none := List.get?_eq_none.mpr hle
  unfold getInstance at h
  rw [hn] at h
  exact Option.noConfusion h

theorem getInstance_set_self : ∀ (v : Vars) (n : Nat) (t : Ty),
    n < v.length → getInstance (setInstance v n t) n = some t
  | [], n, _, h => absurd h (by simp)
  | _ :: _, 0, _, _ => rfl
  | _ :: v, n + 1, t, h => getInstance_set_self v n t (by simpa using h)

theorem getInstance_set_ne : ∀ (v : Vars) (n m : Nat) (t : Ty), n ≠ m →
    getInstance (setInstance v n t) m = getInstance v m
  | [], _, _, _, _ => rfl
  | _ :: _, 0, 0, _, h => absurd rfl h
  | _ :: _, 0, _ + 1, _, _ => rfl
  | _ :: _, _ + 1, 0, _, _ => rfl
  | _ :: v, n + 1, m + 1, t, h =>
    getInstance_set_ne v n m t (fun hc => h (by rw [hc]))

theorem prune_nonvar (fuel : Nat) (t : Ty) (v : Vars) (h : t.isVar = false) :
    prune fuel t v = (t, v) := by
  cases fuel with
  | zero => rfl
  | succ f => cases t <;> simp_all [prune, Ty.isVar]

theorem prune_unbound (fuel : Nat) (n : Nat) (v : Vars)
    (h : getInstance v n = none) : prune fuel (.tVar n) v = (.tVar n, v) := by
  cases fuel with
  | zero => rfl
  | succ f => simp [prune, h]

theorem prune_pres_none : ∀ (fuel : Nat) (t : Ty) (v : Vars) (n : Nat),
    getInstance v n = none → getInstance (prune fuel t v).2 n = none := by
  intro fuel
  induction fuel with
  | zero => intro t v n h; exact h
  | succ f ih =>
    intro t v n h
    cases t with
    | tVar m =>
      cases hm : getInstance v m with
      | none => simp [prune, hm]; exact h
      | some inst =>
        have hmn : m ≠ n := by
          rintro rfl; rw [h] at hm; exact Option.noConfusion hm
        rcases hrv : prune f inst v with ⟨r, v'⟩
        have hv' : getInstance v' n = none := by
          have := ih inst v n h; rwa [hrv] at this
        simp [prune, hm, hrv, setInstance]
        rw [show (v'.set m (some r) : Vars) = setInstance v' m r from rfl,
          getInstance_set_ne v' m n r hmn]
        exact hv'
    | tInt => exact h
    | tBool => exact h
    | tArrow p r => exact h
    | tList e => exact h
    | tHost s => exact h

theorem prune_pres_some_nonvar : ∀ (fuel : Nat) (t : Ty) (v : Vars) (n : Nat) (b : Ty),
    Ty.isVar b = false → getInstance v n = some b →
    getInstance (prune fuel t v).2 n = some b := by
  intro fuel
  induction fuel with
  | zero => intro t v n b _ h; exact h
  | succ f ih =>
    intro t v n b hb h
    cases t with
    | tVar m =>
      cases hm : getInstance v m with
      | none => simp [prune, hm]; exact h
      | some inst =>
        by_cases hmn : m = n
        · subst hmn
          have hib : inst = b := by rw [hm] at h; exact Option.some.inj h
          subst hib
          rw [prune]
          simp only [hm]
          rw [prune_nonvar f inst v hb]
          exact getInstance_set_self v m inst (getInstance_some_lt v m inst h)
        · rcases hrv : prune f inst v with ⟨r, v'⟩
          have hv' : getInstance v' n = some b := by
            have := ih inst v n b hb h; rwa [hrv] at this
          simp [prune, hm, hrv]
          rw [getInstance_set_ne v' m n r hmn]
          exact hv'
    | tInt => exact h
    | tBool => exact h
    | tArrow p r => exact h
    | tList e => exact h
    | tHost s => exact h

theorem occursIn_pres_none : ∀ (fuel : Nat) (m : Nat) (t : Ty) (v : Vars) (n : Nat),
    getInstance v n = none → getInstance (occursIn fuel m t v).2 n = none := by
  intro fuel
  induction fuel with
  | zero => intro m t v n h; exact h
  | succ f ih =>
    intro m t v n h
    rcases hp : prune f t v with ⟨t', v'⟩
    have hv' : getInstance v' n = none := by
      have := prune_pres_none f t v n h; rwa [hp] at this
    cases t' with
    | tVar k => simp [occursIn, hp]; exact hv'
    | tInt => simp [occursIn, hp]; exact hv'
    | tBool => simp [occursIn, hp]; exact hv'
    | tHost s => simp [occursIn, hp]; exact hv'
    | tList e => simp [occursIn, hp]; have := ih m e v' n hv'; exact this
    | tArrow p r =>
      rcases ho1 : occursIn f m p v' with ⟨b1, v1⟩
      have hv1 : getInstance v1 n = none := by
        have := ih m p v' n hv'; rwa [ho1] at this
      cases b1 with
      | true => simp [occursIn, hp, ho1]; exact hv1
      | false =>
        simp [occursIn, hp, ho1]
        have := ih m r v1 n hv1
        exact this

theorem occursIn_pres_some_nonvar : ∀ (fuel : Nat) (m : Nat) (t : Ty) (v : Vars)
    (n : Nat) (b : Ty), Ty.isVar b = false → getInstance v n = some b →
    getInstance (occursIn fuel m t v).2 n = some b := by
  intro fuel
  induction fuel with
  | zero => intro m t v n b _ h; exact h
  | succ f ih =>
    intro m t v n b hb h
    rcases hp : prune f t v with ⟨t', v'⟩
    have hv' : getInstance v' n = some b := by
      have := prune_pres_some_nonvar f t v n b hb h; rwa [hp] at this
    cases t' with
    | tVar k => simp [occursIn, hp]; exact hv'
    | tInt => simp [occursIn, hp]; exact hv'
    | tBool => simp [occursIn, hp]; exact hv'
    | tHost s => simp [occursIn, hp]; exact hv'
    | tList e => simp [occursIn, hp]; exact ih m e v' n b hb hv'
    | tArrow p r =>
      rcases ho1 : occursIn f m p v' with ⟨b1, v1⟩
      have hv1 : getInstance v1 n = some b := by
        have := ih m p v' n b hb hv'; rwa [ho1] at this
      cases b1 with
      | true => simp [occursIn, hp, ho1]; exact hv1
      | false => simp [occursIn, hp, ho1]; exact ih m r v1 n b hb hv1

theorem snapshotOne_pres_some_nonvar (fuel : Nat) (v : Vars) (i n : Nat) (b : Ty)
    (hb : Ty.isVar b = false) (h : getInstance v n = some b) :
    getInstance (snapshotOne fuel v i).2 n = some b := by
  cases hi : getInstance v i with
  | none => simp [snapshotOne, hi]; exact h
  | some inst =>
    rcases hp : prune fuel (.tVar i) v with ⟨r, v'⟩
    have := prune_pres_some_nonvar fuel (.tVar i) v n b hb h
    rw [hp] at this
    simp [snapshotOne, hi, hp]
    exact this

theorem snapshotGo_pres_some_nonvar : ∀ (is : List Nat) (fuel : Nat) (v : Vars)
    (n : Nat) (b : Ty), Ty.isVar b = false → getInstance v n = some b →
    getInstance (snapshotGo fuel is v).2 n = some b := by
  intro is
  induction is with
  | nil => intro fuel v n b _ h; exact h
  | cons i is ih =>
    intro fuel v n b hb h
    rcases h1 : snapshotOne fuel v i with ⟨p, v1⟩
    have hv1 : getInstance v1 n = some b := by
      have := snapshotOne_pres_some_nonvar fuel v i n b hb h; rwa [h1] at this
    rcases h2 : snapshotGo fuel is v1 with ⟨ps, v2⟩
    have hv2 : getInstance v2 n = some b := by
      have := ih fuel v1 n b hb hv1; rwa [h2] at this
    simp [snapshotGo, h1, h2]
    exact hv2

theorem length_setInstance (v : Vars) (n : Nat) (t : Ty) :
    (setInstance v n t).length = v.length := by
  simp [setInstance]

theorem length_prune : ∀ (fuel : Nat) (t : Ty) (v : Vars),
    (prune fuel t v).2.length = v.length := by
  intro fuel
  induction fuel with
  | zero => intro t v; rfl
  | succ f ih =>
    intro t v
    cases t with
    | tVar m =>
      cases hm : getInstance v m with
      | none => simp [prune, hm]
      | some inst =>
        rcases hrv : prune f inst v with ⟨r, v'⟩
        have := ih inst v
        rw [hrv] at this
        simp [prune, hm, hrv, setInstance, this]
    | tInt => rfl
    | tBool => rfl
    | tArrow p r => rfl
    | tList e => rfl
    | tHost s => rfl

theorem length_occursIn : ∀ (fuel : Nat) (m : Nat) (t : Ty) (v : Vars),
    (occursIn fuel m t v).2.length = v.length := by
  intro fuel
  induction fuel with
  | zero => intro m t v; rfl
  | succ f ih =>
    intro m t v
    rcases hp : prune f t v with ⟨t', v'⟩
    have hlp : v'.length = v.length := by
      have := length_prune f t v; rwa [hp] at this
    cases t' with
    | tVar k => simp [occursIn, hp, hlp]
    | tInt => simp [occursIn, hp, hlp]
    | tBool => simp [occursIn, hp, hlp]
    | tHost s => simp [occursIn, hp, hlp]
    | tList e =>
      simp [occursIn, hp]
      rw [ih m e v', hlp]
    | tArrow p r =>
      rcases ho1 : occursIn f m p v' with ⟨b1, v1⟩
      have hl1 : v1.length = v'.length := by
        have := ih m p v'; rwa [ho1] at this
      cases b1 with
      | true => simp [occursIn, hp, ho1, hl1, hlp]
      | false =>
        simp [occursIn, hp, ho1]
        rw [ih m r v1, hl1, hlp]

end HMViz

namespace HMViz

/-- Helper: unfolding of `parseAtom` on a `[`-headed input whose tail does
not immediately close the bracket. -/
theorem parseAtom_bracket (fuel : Nat) (r0 : List Token)
    (h : r0.head? ≠ some (.punc "]")) :
    parseAtom (fuel + 1) (.punc "[" :: r0) =
      (match parseExpression fuel r0 with
       | .error e => .error e
       | .ok (head, r2) =>
         match r2 with
         | .punc "," :: r3 =>
           match parseExpression fuel r3 with
           | .error e => .error e
           | .ok (second, r4) =>
             match r4 with
             | .punc "]" :: r5 => .ok (.eList head (.eList second .eEmptyList), r5)
             | _ => .error (.msg (expectedMsg "]" r4.head?))
         | .punc "]" :: r3 => .ok (.eList head .eEmptyList, r3)
         | _ => .error (.msg (expectedMsg "]" r2.head?))) := by
  rcases r0 with _ | ⟨t, r⟩
  · simp [parseAtom]
  · cases t <;> simp_all [parseAtom]

/-- C7: the list-literal grammar admits exactly zero, one, or two
explicit elements: `[ ]` parses to `EmptyList`, `[ e ]` to
`Cons(e, EmptyList)`, `[ e1 , e2 ]` to `Cons(e1, Cons(e2, EmptyList))`,
and a literal whose second element is followed by another comma (three or
more elements) fails with the syntax error expecting `]`. -/
theorem c7_list_literal_grammar :
    (∀ (fuel : Nat) (rest : List Token),
      parseAtom (fuel + 1) (.punc "[" :: .punc "]" :: rest) =
        .ok (.eEmptyList, rest)) ∧
    (∀ (fuel : Nat) (r0 : List Token) (e1 : Expr) (r1 : List Token),
      r0.head? ≠ some (.punc "]") →
      parseExpression fuel r0 = .ok (e1, .punc "]" :: r1) →
      parseAtom (fuel + 1) (.punc "[" :: r0) = .ok (.eList e1 .eEmptyList, r1)) ∧
    (∀ (fuel : Nat) (r0 : List Token) (e1 : Expr) (r2 : List Token)
        (e2 : Expr) (r3 : List Token),
      r0.head? ≠ some (.punc "]") →
      parseExpression fuel r0 = .ok (e1, .punc "," :: r2) →
      parseExpression fuel r2 = .ok (e2, .punc "]" :: r3) →
      parseAtom (fuel + 1) (.punc "[" :: r0) =
        .ok (.eList e1 (.eList e2 .eEmptyList), r3)) ∧
    (∀ (fuel : Nat) (r0 : List Token) (e1 : Expr) (r2 : List Token)
        (e2 : Expr) (r3 : List Token),
      r0.head? ≠ some (.punc "]") →
      parseExpression fuel r0 = .ok (e1, .punc "," :: r2) →
      parseExpression fuel r2 = .ok (e2, .punc "," :: r3) →
      parseAtom (fuel + 1) (.punc "[" :: r0) =
        .error (.msg "Erro Sintático: Esperado ], achou ,")) := by
  refine ⟨?_, ?_, ?_, ?_⟩
  · intro fuel rest
    simp [parseAtom]
  · intro fuel r0 e1 r1 hh hp
    rw [parseAtom_bracket fuel r0 hh, hp]
    rfl
  · intro fuel r0 e1 r2 e2 r3 hh hp1 hp2
    rw [parseAtom_bracket fuel r0 hh, hp1]
    simp [hp2]
  · intro fuel r0 e1 r2 e2 r3 hh hp1 hp2
    rw [parseAtom_bracket fuel r0 hh, hp1]
    simp [hp2, expectedMsg, tokVal]

/-- C7 witness: concrete literals with zero, one, two and three
elements. -/
theorem c7_list_literal_grammar_witness :
    tokenize "[]" = [.punc "[", .punc "]"] ∧
    parseAtom (49 + 1) [.punc "[", .punc "]"] = .ok (.eEmptyList, []) ∧
    tokenize "[7]" = [.punc "[", .num 7, .punc "]"] ∧
    parseAtom (49 + 1) [.punc "[", .num 7, .punc "]"] =
      .ok (.eList (.eInt 7) .eEmptyList, []) ∧
    tokenize "[7, 8]" = [.punc "[", .num 7, .punc ",", .num 8, .punc "]"] ∧
    parseAtom (49 + 1) [.punc "[", .num 7, .punc ",", .num 8, .punc "]"] =
      .ok (.eList (.eInt 7) (.eList (.eInt 8) .eEmptyList), []) ∧
    tokenize "[1, 2, 3]" =
      [.punc "[", .num 1, .punc ",", .num 2, .punc ",", .num 3, .punc "]"] ∧
    parseAtom (49 + 1)
      [.punc "[", .num 1, .punc ",", .num 2, .punc ",", .num 3, .punc "]"] =
      .error (.msg "Erro Sintático: Esperado ], achou ,") :=
  ⟨by decide,
   c7_list_literal_grammar.1 49 [],
   by decide,
   c7_list_literal_grammar.2.1 49 [.num 7, .punc "]"] (.eInt 7) []
     (by decide) (by decide),
   by decide,
   c7_list_literal_grammar.2.2.1 49 [.num 7, .punc ",", .num 8, .punc "]"]
     (.eInt 7) [.num 8, .punc "]"] (.eInt 8) [] (by decide) (by decide) (by decide),
   by decide,
   c7_list_literal_grammar.2.2.2 49
     [.num 1, .punc ",", .num 2, .punc ",", .num 3, .punc "]"]
     (.eInt 1) [.num 2, .punc ",", .num 3, .punc "]"] (.eInt 2)
     [.num 3, .punc "]"] (by decide) (by decide) (by decide)⟩

end HMViz

namespace HMViz

/-- C5: whenever pruning leaves exactly one side of `unify` an *unbound*
type variable `T<n>` (first conjunct: the left side; second conjunct: the
right side, which the source handles by swapping the arguments and
recursing), then: if `occursIn` reports that the other side contains
`T<n>`, `unify` fails with the occurs-check (infinite type) error and
`T<n>`'s instance is still empty afterwards; otherwise `unify` succeeds,
`T<n>`'s instance — empty before — now holds exactly the other side, and
precisely one `success`-category trace event is appended, naming the
binding and the caller-supplied justification `ctx`. -/
theorem c5_unify_var :
    (∀ (fuel : Nat) (ctx : String) (a b t2 : Ty) (st : St) (n : Nat)
        (v1 v2 v3 : Vars) (occ : Bool),
      prune fuel a st.vars = (.tVar n, v1) →
      prune fuel b v1 = (t2, v2) →
      Ty.isVar t2 = false →
      getInstance v2 n = none →
      n < st.vars.length →
      occursIn fuel n t2 v2 = (occ, v3) →
      (occ = true →
        unify (fuel + 1) ctx a b st =
          (.error (.msg ("Occurs Check: Ciclo infinito ("
              ++ tyToString fuel v3 (.tVar n) ++ " em "
              ++ tyToString fuel v3 t2 ++ ")")), ⟨v3, st.trace⟩) ∧
        getInstance v3 n = none) ∧
      (occ = false →
        unify (fuel + 1) ctx a b st =
          (.ok (), ⟨(snapshotTypes fuel (setInstance v3 n t2)).2,
            st.trace ++ [⟨"UNIFICAR: T" ++ Nat.repr n ++ " ⟵ "
              ++ tyToString fuel (setInstance v3 n t2) t2 ++ " (" ++ ctx ++ ")",
              "success", (snapshotTypes fuel (setInstance v3 n t2)).1⟩]⟩) ∧
        getInstance (unify (fuel + 1) ctx a b st).2.vars n = some t2)) ∧
    (∀ (fuel : Nat) (ctx : String) (a b t1 : Ty) (st : St) (n : Nat)
        (v1 v2 v3 : Vars) (occ : Bool),
      prune (fuel + 1) a st.vars = (t1, v1) →
      prune (fuel + 1) b v1 = (.tVar n, v2) →
      Ty.isVar t1 = false →
      getInstance v2 n = none →
      n < st.vars.length →
      occursIn fuel n t1 v2 = (occ, v3) →
      (occ = true →
        unify (fuel + 1 + 1) ctx a b st =
          (.error (.msg ("Occurs Check: Ciclo infinito ("
              ++ tyToString fuel v3 (.tVar n) ++ " em "
              ++ tyToString fuel v3 t1 ++ ")")), ⟨v3, st.trace⟩) ∧
        getInstance v3 n = none) ∧
      (occ = false →
        unify (fuel + 1 + 1) ctx a b st =
          (.ok (), ⟨(snapshotTypes fuel (setInstance v3 n t1)).2,
            st.trace ++ [⟨"UNIFICAR: T" ++ Nat.repr n ++ " ⟵ "
              ++ tyToString fuel (setInstance v3 n t1) t1 ++ " (" ++ ctx ++ ")",
              "success", (snapshotTypes fuel (setInstance v3 n t1)).1⟩]⟩) ∧
        getInstance (unify (fuel + 1 + 1) ctx a b st).2.vars n = some t1)) := by
  have main : ∀ (fuel : Nat) (ctx : String) (a b t2 : Ty) (st : St) (n : Nat)
      (v1 v2 v3 : Vars) (occ : Bool),
      prune fuel a st.vars = (.tVar n, v1) →
      prune fuel b v1 = (t2, v2) →
      Ty.isVar t2 = false →
      getInstance v2 n = none →
      n < st.vars.length →
      occursIn fuel n t2 v2 = (occ, v3) →
      (occ = true →
        unify (fuel + 1) ctx a b st =
          (.error (.msg ("Occurs Check: Ciclo infinito ("
              ++ tyToString fuel v3 (.tVar n) ++ " em "
              ++ tyToString fuel v3 t2 ++ ")")), ⟨v3, st.trace⟩) ∧
        getInstance v3 n = none) ∧
      (occ = false →
        unify (fuel + 1) ctx a b st =
          (.ok (), ⟨(snapshotTypes fuel (setInstance v3 n t2)).2,
            st.trace ++ [⟨"UNIFICAR: T" ++ Nat.repr n ++ " ⟵ "
              ++ tyToString fuel (setInstance v3 n t2) t2 ++ " (" ++ ctx ++ ")",
              "success", (snapshotTypes fuel (setInstance v3 n t2)).1⟩]⟩) ∧
        getInstance (unify (fuel + 1) ctx a b st).2.vars n = some t2) := by
    intro fuel ctx a b t2 st n v1 v2 v3 occ hp1 hp2 hv hun hlen hocc
    have hunify : unify (fuel + 1) ctx a b st =
        (if occ then
          (.error (.msg ("Occurs Check: Ciclo infinito ("
              ++ tyToString fuel v3 (.tVar n) ++ " em "
              ++ tyToString fuel v3 t2 ++ ")")), ⟨v3, st.trace⟩)
        else
          (.ok (), ⟨(snapshotTypes fuel (setInstance v3 n t2)).2,
            st.trace ++ [⟨"UNIFICAR: T" ++ Nat.repr n ++ " ⟵ "
              ++ tyToString fuel (setInstance v3 n t2) t2 ++ " (" ++ ctx ++ ")",
              "success", (snapshotTypes fuel (setInstance v3 n t2)).1⟩]⟩)) := by
      cases t2 <;> simp_all [unify, Ty.isVar]
    constructor
    · intro ho
      subst ho
      have hE := hunify.trans (if_pos rfl)
      refine ⟨hE, ?_⟩
      have := occursIn_pres_none fuel n t2 v2 n hun
      rwa [hocc] at this
    · intro ho
      subst ho
      have hE := hunify.trans (if_neg (by simp))
      refine ⟨hE, ?_⟩
      rw [hE]
      have hl3 : n < v3.length := by
        have e1 : v1.length = st.vars.length := by
          have := length_prune fuel a st.vars; rwa [hp1] at this
        have e2 : v2.length = v1.length := by
          have := length_prune fuel b v1; rwa [hp2] at this
        have e3 : v3.length = v2.length := by
          have := length_occursIn fuel n t2 v2; rwa [hocc] at this
        omega
      have hset : getInstance (setInstance v3 n t2) n = some t2 :=
        getInstance_set_self v3 n t2 hl3
      exact snapshotGo_pres_some_nonvar (List.range (setInstance v3 n t2).length)
        fuel (setInstance v3 n t2) n t2 hv hset
  constructor
  · exact main
  · intro fuel ctx a b t1 st n v1 v2 v3 occ hp1 hp2 hv hun hlen hocc
    have hne : t1 ≠ Ty.tVar n := by cases t1 <;> simp_all [Ty.isVar]
    have hstep : unify (fuel + 1 + 1) ctx a b st =
        unify (fuel + 1) ctx (.tVar n) t1 ⟨v2, st.trace⟩ := by
      cases t1 with
      | tVar m => simp [Ty.isVar] at hv
      | tInt => simp [unify, hp1, hp2]
      | tBool => simp [unify, hp1, hp2]
      | tHost s => simp [unify, hp1, hp2]
      | tArrow p r => simp [unify, hp1, hp2]
      | tList e => simp [unify, hp1, hp2]
    have hinner := main fuel ctx (.tVar n) t1 t1 ⟨v2, st.trace⟩ n v2 v2 v3 occ
      (by simpa using prune_unbound fuel n v2 hun)
      (prune_nonvar fuel t1 v2 hv) hv hun
      (by
        have e2 : v2.length = v1.length := by
          have := length_prune (fuel + 1) b v1; rwa [hp2] at this
        have e1 : v1.length = st.vars.length := by
          have := length_prune (fuel + 1) a st.vars; rwa [hp1] at this
        simpa [e2, e1] using hlen)
      hocc
    rw [hstep]
    exact hinner

/-- C5 witness: binding the unbound `T0` to `Int` (no occurrence), left
and right orientation. -/
theorem c5_unify_var_witness :
    occursIn 5 0 .tInt [none] = (false, [none]) ∧
    unify (5 + 1) "Aplicação" (.tVar 0) .tInt ⟨[none], []⟩ =
      (.ok (), ⟨(snapshotTypes 5 (setInstance [none] 0 .tInt)).2,
        [] ++ [⟨"UNIFICAR: T" ++ Nat.repr 0 ++ " ⟵ "
          ++ tyToString 5 (setInstance [none] 0 .tInt) .tInt
          ++ " (" ++ "Aplicação" ++ ")", "success",
          (snapshotTypes 5 (setInstance [none] 0 .tInt)).1⟩]⟩) ∧
    getInstance (unify (5 + 1) "Aplicação" (.tVar 0) .tInt ⟨[none], []⟩).2.vars 0 =
      some .tInt ∧
    getInstance (unify (5 + 1 + 1) "Condição If" .tBool (.tVar 0) ⟨[none], []⟩).2.vars 0 =
      some .tBool := by
  have hA := ((c5_unify_var.1 5 "Aplicação" (.tVar 0) .tInt .tInt ⟨[none], []⟩ 0
    [none] [none] [none] false (by decide) (by decide) (by decide) (by decide)
    (by decide) (by decide)).2 rfl)
  have hB := ((c5_unify_var.2 4 "Condição If" .tBool (.tVar 0) .tBool ⟨[none], []⟩ 0
    [none] [none] [none] false (by decide) (by decide) (by decide) (by decide)
    (by decide) (by decide)).2 rfl)
  exact ⟨by decide, hA.1, hA.2, hB.2⟩

/-- Helper for C8: a fully-resolved type prunes (with enough fuel) to a
non-variable result. -/
theorem resolved_prune {v : Vars} {t : Ty} (h : Resolved v t) :
    ∃ (fuel : Nat) (r : Ty) (v' : Vars),
      prune fuel t v = (r, v') ∧ Ty.isVar r = false := by
  induction h with
  | rint => exact ⟨1, .tInt, v, rfl, rfl⟩
  | rbool => exact ⟨1, .tBool, v, rfl, rfl⟩
  | rarrow _ _ _ _ => exact ⟨1, _, v, rfl, rfl⟩
  | rlist _ _ => exact ⟨1, _, v, rfl, rfl⟩
  | @rvar n t0 hinst _ ih =>
    obtain ⟨f, r, v', hp, hnv⟩ := ih
    exact ⟨f + 1, r, setInstance v' n r, by simp [prune, hinst, hp], hnv⟩

/-- C8: pruning is idempotent on fully-resolved types: for a type in
which every reachable variable is bound, there is enough fuel that one
`prune` yields a result and store that a second `prune` maps to
themselves, so the string renderings after one and after two prunes are
identical. -/
theorem c8_prune_idempotent (v : Vars) (t : Ty) (h : Resolved v t) :
    ∃ (fuel : Nat) (r : Ty) (v' : Vars),
      prune fuel t v = (r, v') ∧ prune fuel r v' = (r, v') ∧
      tyToString fuel v' (prune fuel r v').1 = tyToString fuel v' r := by
  obtain ⟨f, r, v', hp, hnv⟩ := resolved_prune h
  refine ⟨f, r, v', hp, prune_nonvar f r v' hnv, ?_⟩
  rw [prune_nonvar f r v' hnv]

/-- C8 witness: the bound variable `T0 ↦ Int` in a one-entry store. -/
theorem c8_prune_idempotent_witness :
    ∃ (fuel : Nat) (r : Ty) (v' : Vars),
      prune fuel (.tVar 0) [some .tInt] = (r, v') ∧
      prune fuel r v' = (r, v') ∧
      tyToString fuel v' (prune fuel r v').1 = tyToString fuel v' r :=
  c8_prune_idempotent [some .tInt] (.tVar 0)
    (Resolved.rvar (by decide) Resolved.rint)

end HMViz

namespace HMViz

theorem noBracket_cons_iff {t : Token} {ts : List Token} :
    noBracket (t :: ts) = true ↔ (t ≠ .punc "[" ∧ noBracket ts = true) := by
  by_cases h : t = .punc "[" <;> simp [noBracket, h]

/-- Helper for C9: on bracket-free input, every parser level returns a
list-free AST and a bracket-free remainder. -/
theorem parser_listFree : ∀ fuel : Nat,
    (∀ ts e r, noBracket ts = true → parseAtom fuel ts = .ok (e, r) →
      listFree e = true ∧ noBracket r = true) ∧
    (∀ acc ts e r, noBracket ts = true → listFree acc = true →
      parseAppLoop fuel acc ts = .ok (e, r) →
      listFree e = true ∧ noBracket r = true) ∧
    (∀ ts e r, noBracket ts = true → parseApp fuel ts = .ok (e, r) →
      listFree e = true ∧ noBracket r = true) ∧
    (∀ ts e r, noBracket ts = true → parseBinary fuel ts = .ok (e, r) →
      listFree e = true ∧ noBracket r = true) ∧
    (∀ ts e r, noBracket ts = true → parseExpression fuel ts = .ok (e, r) →
      listFree e = true ∧ noBracket r = true) := by
  intro fuel
  induction fuel with
  | zero =>
    refine ⟨?_, ?_, ?_, ?_, ?_⟩
    · intro ts e r _ H; simp [parseAtom] at H
    · intro acc ts e r _ _ H; simp [parseAppLoop] at H
    · intro ts e r _ H; simp [parseApp] at H
    · intro ts e r _ H; simp [parseBinary] at H
    · intro ts e r _ H; simp [parseExpression] at H
  | succ f ih =>
    obtain ⟨ihA, ihL, ihP, ihB, ihE⟩ := ih
    refine ⟨?_, ?_, ?_, ?_, ?_⟩
    · -- parseAtom
      intro ts e r hnb H
      match ts, hnb, H with
      | [], hnb, H => simp [parseAtom] at H
      | .num v :: rest, hnb, H =>
        simp only [parseAtom, Except.ok.injEq, Prod.mk.injEq] at H
        obtain ⟨he, hr⟩ := H
        subst he; subst hr
        exact ⟨rfl, (noBracket_cons_iff.mp hnb).2⟩
      | .bool b :: rest, hnb, H =>
        simp only [parseAtom, Except.ok.injEq, Prod.mk.injEq] at H
        obtain ⟨he, hr⟩ := H
        subst he; subst hr
        exact ⟨rfl, (noBracket_cons_iff.mp hnb).2⟩
      | .id s :: rest, hnb, H =>
        simp only [parseAtom, Except.ok.injEq, Prod.mk.injEq] at H
        obtain ⟨he, hr⟩ := H
        subst he; subst hr
        exact ⟨rfl, (noBracket_cons_iff.mp hnb).2⟩
      | .kw s :: rest, hnb, H => simp [parseAtom] at H
      | .arrow :: rest, hnb, H => simp [parseAtom] at H
      | .op s :: rest, hnb, H => simp [parseAtom] at H
      | .punc s :: rest, hnb, H =>
        obtain ⟨hne, hrest⟩ := noBracket_cons_iff.mp hnb
        have hbr : ¬(s = "[") := by rintro rfl; exact hne rfl
        by_cases hp : s = "("
        · subst hp
          rcases hpe : parseExpression f rest with em | ⟨e2, r2⟩
          · simp [parseAtom, hpe] at H
          · obtain ⟨hf2, hnb2⟩ := ihE rest e2 r2 hrest hpe
            simp only [parseAtom, hpe] at H
            split at H
            · rename_i r3
              simp only [Except.ok.injEq, Prod.mk.injEq] at H
              obtain ⟨he, hr⟩ := H
              subst he; subst hr
              exact ⟨hf2, (noBracket_cons_iff.mp hnb2).2⟩
            · exact Except.noConfusion H
        · simp [parseAtom, hbr, hp] at H
    · -- parseAppLoop
      intro acc ts e r hnb hacc H
      simp only [parseAppLoop] at H
      by_cases hs : atomStart ts
      · rw [if_pos hs] at H
        rcases hA : parseAtom f ts with em | ⟨a, rest⟩
        · simp [hA] at H
        · simp only [hA] at H
          obtain ⟨hfa, hnbr⟩ := ihA ts a rest hnb hA
          exact ihL (.eApp acc a) rest e r hnbr (by simp [listFree, hacc, hfa]) H
      · rw [if_neg hs] at H
        simp only [Except.ok.injEq, Prod.mk.injEq] at H
        obtain ⟨he, hr⟩ := H
        subst he; subst hr
        exact ⟨hacc, hnb⟩
    · -- parseApp
      intro ts e r hnb H
      rcases hA : parseAtom f ts with em | ⟨a, rest⟩
      · simp [parseApp, hA] at H
      · simp only [parseApp, hA] at H
        obtain ⟨hfa, hnbr⟩ := ihA ts a rest hnb hA
        exact ihL a rest e r hnbr hfa H
    · -- parseBinary
      intro ts e r hnb H
      rcases hA : parseApp f ts with em | ⟨l, rest⟩
      · simp [parseBinary, hA] at H
      · simp only [parseBinary, hA] at H
        obtain ⟨hfl, hnbrest⟩ := ihP ts l rest hnb hA
        split at H
        · rename_i v r2
          by_cases hv : v = "="
          · rw [if_pos hv] at H
            simp only [Except.ok.injEq, Prod.mk.injEq] at H
            obtain ⟨he, hr⟩ := H
            subst he; subst hr
            exact ⟨hfl, hnbrest⟩
          · rw [if_neg hv] at H
            rcases hB : parseBinary f r2 with em | ⟨rr, r3⟩
            · simp [hB] at H
            · simp only [hB, Except.ok.injEq, Prod.mk.injEq] at H
              obtain ⟨he, hr⟩ := H
              subst he; subst hr
              obtain ⟨hfr, hnbr3⟩ :=
                ihB r2 rr r3 (noBracket_cons_iff.mp hnbrest).2 hB
              exact ⟨by simp [listFree, hfl, hfr], hnbr3⟩
        · simp only [Except.ok.injEq, Prod.mk.injEq] at H
          obtain ⟨he, hr⟩ := H
          subst he; subst hr
          exact ⟨hfl, hnbrest⟩
    · -- parseExpression
      intro ts e r hnb H
      simp only [parseExpression] at H
      split at H
      · -- let
        rename_i rest
        have hrest := (noBracket_cons_iff.mp hnb).2
        split at H
        · rename_i n r2
          have hr2 := (noBracket_cons_iff.mp hrest).2
          split at H
          · rename_i r3
            have hr3 := (noBracket_cons_iff.mp hr2).2
            rcases hv : parseExpression f r3 with em | ⟨vE, r4⟩
            · simp [hv] at H
            · simp only [hv] at H
              obtain ⟨hfv, hnb4⟩ := ihE r3 vE r4 hr3 hv
              split at H
              · rename_i r5
                have hr5 := (noBracket_cons_iff.mp hnb4).2
                rcases hb : parseExpression f r5 with em | ⟨bE, r6⟩
                · simp [hb] at H
                · simp only [hb, Except.ok.injEq, Prod.mk.injEq] at H
                  obtain ⟨he, hr⟩ := H
                  subst he; subst hr
                  obtain ⟨hfb, hnb6⟩ := ihE r5 bE r6 hr5 hb
                  exact ⟨by simp [listFree, hfv, hfb], hnb6⟩
              · exact Except.noConfusion H
          · exact Except.noConfusion H
        · exact Except.noConfusion H
      · -- fun
        rename_i rest
        have hrest := (noBracket_cons_iff.mp hnb).2
        split at H
        · rename_i p r2
          have hr2 := (noBracket_cons_iff.mp hrest).2
          split at H
          · rename_i r3
            have hr3 := (noBracket_cons_iff.mp hr2).2
            rcases hb : parseExpression f r3 with em | ⟨bE, r4⟩
            · simp [hb] at H
            · simp only [hb, Except.ok.injEq, Prod.mk.injEq] at H
              obtain ⟨he, hr⟩ := H
              subst he; subst hr
              obtain ⟨hfb, hnb4⟩ := ihE r3 bE r4 hr3 hb
              exact ⟨by simp [listFree, hfb], hnb4⟩
          · exact Except.noConfusion H
        · exact Except.noConfusion H
      · -- if
        rename_i rest
        have hrest := (noBracket_cons_iff.mp hnb).2
        rcases hc : parseExpression f rest with em | ⟨cE, r2⟩
        · simp [hc] at H
        · simp only [hc] at H
          obtain ⟨hfc, hnb2⟩ := ihE rest cE r2 hrest hc
          split at H
          · rename_i r3
            have hr3 := (noBracket_cons_iff.mp hnb2).2
            rcases ht : parseExpression f r3 with em | ⟨tE, r4⟩
            · simp [ht] at H
            · simp only [ht] at H
              obtain ⟨hft, hnb4⟩ := ihE r3 tE r4 hr3 ht
              split at H
              · rename_i r5
                have hr5 := (noBracket_cons_iff.mp hnb4).2
                rcases he2 : parseExpression f r5 with em | ⟨eE, r6⟩
                · simp [he2] at H
                · simp only [he2, Except.ok.injEq, Prod.mk.injEq] at H
                  obtain ⟨he, hr⟩ := H
                  subst he; subst hr
                  obtain ⟨hfe, hnb6⟩ := ihE r5 eE r6 hr5 he2
                  exact ⟨by simp [listFree, hfc, hft, hfe], hnb6⟩
              · exact Except.noConfusion H
          · exact Except.noConfusion H
      · -- default: parseBinary
        exact ihB ts e r hnb H

end HMViz

namespace HMViz

/-- C9: the `::` operator never constructs a list.  The tokenizer emits it
as an ordinary `OP` token, the parser turns `1 :: [1]` into a `BinOp`
node (not a `Cons`), and the analyzer types that node by the
non-arithmetic branch — unify left with right, result `Bool` — so
`1 :: [1]` fails with the type-mismatch error `Int` vs `[Int]` while
`[2] :: [1]` succeeds with type `Bool`; and `Cons`/`EmptyList` nodes
arise only from bracketed list literals: any input with no `[` token
parses to a list-free AST. -/
theorem c9_cons_only_from_brackets :
    tokenize "1 :: [1]" = [.num 1, .op "::", .punc "[", .num 1, .punc "]"] ∧
    parseExpression 50 (tokenize "1 :: [1]") =
      .ok (.eBinOp "::" (.eInt 1) (.eList (.eInt 1) .eEmptyList), []) ∧
    (runAnalysis 50 "1 :: [1]").1 = .error (.msg "Incompatível: Int vs [Int]") ∧
    (runAnalysis 50 "[2] :: [1]").1 = .ok "Bool" ∧
    (∀ (fuel : Nat) (ts : List Token) (e : Expr) (r : List Token),
      noBracket ts = true → parseExpression fuel ts = .ok (e, r) →
      listFree e = true) := by
  refine ⟨by decide, by decide, by decide, by decide, ?_⟩
  intro fuel ts e r hnb H
  exact ((parser_listFree fuel).2.2.2.2 ts e r hnb H).1

/-- C9 witness: `1 :: 2` has no bracket token and parses to the
list-free node `BinOp(::, 1, 2)`. -/
theorem c9_cons_only_from_brackets_witness :
    noBracket (tokenize "1 :: 2") = true ∧
    parseExpression 50 (tokenize "1 :: 2") =
      .ok (.eBinOp "::" (.eInt 1) (.eInt 2), []) ∧
    listFree (.eBinOp "::" (.eInt 1) (.eInt 2)) = true :=
  ⟨by decide, by decide,
   c9_cons_only_from_brackets.2.2.2.2 50 (tokenize "1 :: 2")
     (.eBinOp "::" (.eInt 1) (.eInt 2)) [] (by decide) (by decide)⟩

end HMViz
